import Mathlib

/- Verification development for a small commute planner (src/commute.py).

   Modelling conventions:
   * A time of day is its count of minutes from midnight (python
     datetime.time values compare lexicographically on (hour, minute),
     which coincides with comparing that count).  A duration is a count
     of minutes (python timedelta(minutes=n)).
   * Python's `(datetime.datetime.combine(datetime.date.today(), t) + d).time()`
     is addition modulo one day, and the corresponding subtraction is
     subtraction modulo one day; both are modelled on Nat/Int mod 1440.
   * Python exceptions are modelled with Except.  A generator run is
     modelled as the list of values it yielded, paired with the
     exception (if any) that aborted it: values yielded before the
     exception were already delivered to the consumer.
   * The recursive generators dfs_unconstrained/dfs_constrained are
     modelled with a fuel parameter so that the functions stay
     structurally recursive; the fuel-independence lemmas below show
     that any fuel exceeding the number of graph locations gives the
     same result, which is exactly the source's termination argument. -/

def minutesPerDay : Nat := 1440

/-- Same-day clock addition, python
    `(datetime.datetime.combine(datetime.date.today(), t) + d).time()`. -/
def addDur (t d : Nat) : Nat := (t + d) % minutesPerDay

/-- Same-day clock subtraction, python
    `(datetime.datetime.combine(datetime.date.today(), t) - d).time()`. -/
def subDur (t d : Nat) : Nat := (((t : Int) - (d : Int)) % (minutesPerDay : Int)).toNat

/-- A lexically well-shaped time token `H:MM` or `HH:MM` (src/commute.py
    time_pat), already split at the colon: both components are at most
    two digits, so at most 99. -/
structure TimeTok where
  h : Nat
  m : Nat
deriving DecidableEq

/-- Embeds validateTime (src/commute.py lines 230-235) applied to a token:
    `datetime.time(hour=int(h), minute=int(m))` raises ValueError unless
    0 <= hour <= 23 and 0 <= minute <= 59; otherwise the resulting time
    of day is h*60+m minutes from midnight. -/
def validateTime (tok : TimeTok) : Except String Nat :=
  if tok.h ≤ 23 ∧ tok.m ≤ 59 then Except.ok (tok.h * 60 + tok.m)
  else Except.error "ValueError: hour or minute out of range"

/-- Embeds FlexRoute's fields (src/commute.py lines 142-149); the duration
    token is a nonnegative integer count of minutes (validateDuration). -/
structure FlexRoute where
  start : String
  dest : String
  duration : Nat
deriving DecidableEq

/-- Embeds TimedRoute's fields (src/commute.py lines 180-190). -/
structure TimedRoute where
  start : String
  start_time : Nat
  dest : String
  dest_time : Nat
deriving DecidableEq

/-- Embeds TimedRoute.__init__ (src/commute.py lines 183-190) applied to
    already-validated times: the constructor raises unless
    start_time < dest_time. -/
def TimedRoute.make (s : String) (st : Nat) (d : String) (dt : Nat) :
    Except String TimedRoute :=
  if dt ≤ st then Except.error "Start time must be before dest time!"
  else Except.ok ⟨s, st, d, dt⟩

/-- Embeds TimedRoute.__init__ applied to raw time tokens, as done by
    parse (src/commute.py line 215): each token goes through validateTime
    and then the ordering invariant is checked. -/
def TimedRoute.ofTokens (s : String) (st : TimeTok) (d : String) (dt : TimeTok) :
    Except String TimedRoute :=
  match validateTime st with
  | Except.error e => Except.error e
  | Except.ok a =>
    match validateTime dt with
    | Except.error e => Except.error e
    | Except.ok b => TimedRoute.make s a d b

/-- A graph edge is either kind of route (python distinguishes them with
    isinstance checks). -/
inductive Route where
  | flex (f : FlexRoute)
  | timed (t : TimedRoute)
deriving DecidableEq

/-- Embeds FlexRoute.promote (src/commute.py lines 165-177): exactly one
    anchor must be supplied; the other endpoint time is derived from the
    duration; the TimedRoute constructor re-checks start < dest. -/
def FlexRoute.promote (f : FlexRoute) (begin_ts end_ts : Option Nat) :
    Except String TimedRoute :=
  match begin_ts, end_ts with
  | none, none => Except.error "Neither begin_ts nor end_ts were set!"
  | some _, some _ => Except.error "Both begin_ts and end_ts were set!"
  | some b, none => TimedRoute.make f.start b f.dest (addDur b f.duration)
  | none, some e => TimedRoute.make f.start (subDur e f.duration) f.dest e

/-- Lexicographic comparison of character lists: the first differing
    character decides, and a proper prefix is smaller. -/
def charListLt : List Char → List Char → Bool
  | [], [] => false
  | [], _ :: _ => true
  | _ :: _, [] => false
  | a :: as, b :: bs =>
    if a < b then true else if b < a then false else charListLt as bs

/-- Python string `<`: lexicographic on code points. -/
def strLt (a b : String) : Bool := charListLt a.data b.data

/-- Embeds route_le (src/commute.py lines 127-139).  Note the final case
    compares `a.start` with `b.start`, i.e. the start LOCATION strings,
    exactly as the source does. -/
def route_le : Route → Route → Bool
  | Route.flex a, Route.flex b => decide (a.duration < b.duration)
  | Route.flex _, Route.timed _ => true
  | Route.timed _, Route.flex _ => false
  | Route.timed a, Route.timed b => strLt a.start b.start

/-- The strict comparison functools.total_ordering derives from __le__
    and __eq__: `a < b` is `a <= b and a != b`. -/
def route_lt (a b : Route) : Bool := route_le a b && !(decide (a = b))

/-- Stable insertion of x into a list already sorted by the strict
    comparison lt: x moves left only past elements strictly greater
    than it, so tied elements keep their original relative order. -/
def insertLt (lt : Route → Route → Bool) (x : Route) : List Route → List Route
  | [] => [x]
  | y :: ys => if lt y x then y :: insertLt lt x ys else x :: y :: ys

/-- Stable ascending sort by the strict comparison lt, modelling python
    list.sort() (a stable sort driven by __lt__; for the strict weak
    order route_lt every stable sort produces the same list). -/
def pySort (lt : Route → Route → Bool) : List Route → List Route
  | [] => []
  | x :: xs => insertLt lt x (pySort lt xs)

/-- A parsed input entry as handed to CommuteGraph.__init__ after parse:
    comment and blank lines have already been dropped (parse returns None
    for them and __init__ filters the Nones out), so exactly three kinds
    remain. -/
inductive Entry where
  | header (start dest : String)
  | flex (f : FlexRoute)
  | timed (t : TimedRoute)
deriving DecidableEq

def Entry.isHeaderB : Entry → Bool
  | Entry.header _ _ => true
  | _ => false

/-- Embeds the header scan of CommuteGraph.__init__ (src/commute.py lines
    36-49).  The python loop breaks on the first Header and raises on a
    route before it; since every entry is one of the three kinds, the
    loop never advances past the first entry.  On an empty entry list the
    loop body never runs and the subsequent read of `i` raises NameError.
    The returned Nat is the loop index at the break. -/
def findHeader : List Entry → Nat → Except String (Nat × String × String)
  | [], _ => Except.error "NameError: name i is not defined"
  | Entry.header s d :: _, i => Except.ok (i, s, d)
  | Entry.flex _ :: _, _ => Except.error "Routes appearing before header"
  | Entry.timed _ :: _, _ => Except.error "Routes appearing before header"

/-- Embeds `self.edges[e.start].append(e)` on a defaultdict(list): the
    route is appended to the list of its start location, keys appearing
    in first-touch order. -/
def addRoute : List (String × List Route) → String → Route → List (String × List Route)
  | [], loc, r => [(loc, [r])]
  | (k, rs) :: rest, loc, r =>
    if k = loc then (k, rs ++ [r]) :: rest
    else (k, rs) :: addRoute rest loc r

/-- Embeds the graph-building loop of CommuteGraph.__init__ (src/commute.py
    lines 51-58) over the entries after the header. -/
def buildEdges : List Entry → List (String × List Route) →
    Except String (List (String × List Route))
  | [], es => Except.ok es
  | Entry.flex f :: rest, es => buildEdges rest (addRoute es f.start (Route.flex f))
  | Entry.timed t :: rest, es => buildEdges rest (addRoute es t.start (Route.timed t))
  | Entry.header _ _ :: _, _ => Except.error "Duplicate header"

structure CommuteGraph where
  start : String
  dest : String
  edges : List (String × List Route)
deriving DecidableEq

/-- Embeds CommuteGraph.__init__ (src/commute.py lines 29-62) on the
    parsed entries: scan for the header, check the (dead) missing-header
    condition `i == len(entries)`, build the adjacency lists, then sort
    every location's list by route priority. -/
def CommuteGraph.build (entries : List Entry) : Except String CommuteGraph :=
  match findHeader entries 0 with
  | Except.error e => Except.error e
  | Except.ok (i, s, d) =>
    if i = entries.length then Except.error "Missing header line"
    else
      match buildEdges (entries.drop (i+1)) [] with
      | Except.error e => Except.error e
      | Except.ok es =>
        Except.ok ⟨s, d, es.map (fun kv => (kv.1, pySort route_lt kv.2))⟩

/-- Embeds `self.edges[curr]` as read by find_path: a missing key gives
    the empty list (defaultdict). -/
def lookupE (edges : List (String × List Route)) (k : String) : List Route :=
  match edges.find? (fun p => p.1 == k) with
  | some p => p.2
  | none => []

/-- An itinerary: the accumulated path of routes. -/
abbrev Itin := List Route

/-- One run of a python generator: the list of yielded values, and the
    exception that aborted the run, if any. -/
abbrev GenRun := List Itin × Option String

/-- Sequencing of generator runs (`yield from` one after the other): if
    the first aborted, the second never runs. -/
def GenRun.seq (a b : GenRun) : GenRun :=
  match a.2 with
  | none => (a.1 ++ b.1, b.2)
  | some e => (a.1, some e)

/-- Embeds the backward promotion loop of dfs_unconstrained
    (src/commute.py lines 83-90): the accumulated entries are visited in
    reverse; each FlexRoute is promoted with end_ts equal to the running
    anchor, prepended, and the anchor becomes its start_time; non-flex
    entries are skipped.  Returns the new accumulator and the final
    anchor; an exception from promote propagates. -/
def promoteBack : Itin → Nat → Except String (Itin × Nat)
  | [], ts => Except.ok ([], ts)
  | r :: rest, ts =>
    match promoteBack rest ts with
    | Except.error e => Except.error e
    | Except.ok (tail, ts2) =>
      match r with
      | Route.flex f =>
        match f.promote none (some ts2) with
        | Except.error e => Except.error e
        | Except.ok p => Except.ok (Route.timed p :: tail, p.start_time)
      | Route.timed _ => Except.ok (tail, ts2)

/-- The body of dfs_constrained's edge loop (src/commute.py lines
    103-109), one iteration.  The loop-carried state is the pair of the
    python local `ts` (reassigned in the FlexRoute branch, so the new
    value is seen by the remaining iterations) and the run so far; once
    an exception is recorded the loop is dead.  `recC` stands for the
    recursive call to dfs_constrained at the next smaller fuel. -/
def stepC (recC : String → List String → Itin → Nat → GenRun)
    (curr : String) (seen : List String) (acc : Itin)
    (st : Nat × GenRun) (e : Route) : Nat × GenRun :=
  match st.2.2 with
  | some _ => st
  | none =>
    match e with
    | Route.timed t =>
      if st.1 ≤ t.dest_time then
        (st.1, GenRun.seq st.2
          (recC t.dest (curr :: seen) (acc ++ [Route.timed t]) t.dest_time))
      else st
    | Route.flex f =>
      match f.promote (some (addDur st.1 f.duration)) none with
      | Except.error msg => (addDur st.1 f.duration, (st.2.1, some msg))
      | Except.ok p =>
        (addDur st.1 f.duration, GenRun.seq st.2
          (recC p.dest (curr :: seen) (acc ++ [Route.timed p])
            (addDur st.1 f.duration)))

/-- Embeds find_path.dfs_constrained (src/commute.py lines 93-109): yield
    the accumulator when at dest, then (if curr is unvisited) walk the
    outgoing edges with stepC. -/
def dfs_constrained (g : CommuteGraph) (dest : String) :
    Nat → String → List String → Itin → Nat → GenRun
  | 0, _, _, _, _ => ([], none)
  | fuel+1, curr, seen, acc, ts =>
    GenRun.seq (if curr = dest then ([acc], none) else ([], none))
      (if curr ∈ seen then ([], none)
       else ((lookupE g.edges curr).foldl
         (stepC (dfs_constrained g dest fuel) curr seen acc)
         (ts, (([], none) : GenRun))).2)

/-- The body of dfs_unconstrained's edge loop (src/commute.py lines
    79-91), one iteration: a FlexRoute recurses unconstrained; a
    TimedRoute triggers the backward promotion of the accumulator and
    recurses constrained anchored at its dest_time. -/
def stepU (recU : String → List String → Itin → GenRun)
    (recC : String → List String → Itin → Nat → GenRun)
    (curr : String) (seen : List String) (acc : Itin)
    (st : GenRun) (e : Route) : GenRun :=
  match st.2 with
  | some _ => st
  | none =>
    match e with
    | Route.flex f =>
      GenRun.seq st (recU f.dest (curr :: seen) (acc ++ [Route.flex f]))
    | Route.timed t =>
      match promoteBack acc t.start_time with
      | Except.error msg => (st.1, some msg)
      | Except.ok (newAcc, _) =>
        GenRun.seq st
          (recC t.dest (curr :: seen) (newAcc ++ [Route.timed t]) t.dest_time)

/-- Embeds find_path.dfs_unconstrained (src/commute.py lines 69-91). -/
def dfs_unconstrained (g : CommuteGraph) (dest : String) :
    Nat → String → List String → Itin → GenRun
  | 0, _, _, _ => ([], none)
  | fuel+1, curr, seen, acc =>
    GenRun.seq (if curr = dest then ([acc], none) else ([], none))
      (if curr ∈ seen then ([], none)
       else (lookupE g.edges curr).foldl
         (stepU (dfs_unconstrained g dest fuel) (dfs_constrained g dest fuel)
           curr seen acc)
         (([], none) : GenRun))

/-- Embeds CommuteGraph.find_path (src/commute.py lines 65-112): the
    python recursion is unbounded; fuel one more than the number of
    locations with outgoing routes is sufficient, by the
    fuel-independence lemmas below. -/
def find_path (g : CommuteGraph) (s d : String) : GenRun :=
  dfs_unconstrained g d (g.edges.length + 1) s [] []

/-- Consecutive committed timestamps are non-decreasing: every route's
    start_time is at least the preceding route's dest_time (all routes
    in a committed itinerary are TimedRoutes). -/
def wellTimed : Itin → Bool
  | [] => true
  | [_] => true
  | Route.timed a :: Route.timed b :: rest =>
    decide (a.dest_time ≤ b.start_time) && wellTimed (Route.timed b :: rest)
  | _ :: _ :: _ => false

/-- Total duration of a list of flex routes, in minutes. -/
def durSum : List FlexRoute → Nat
  | [] => 0
  | f :: fs => f.duration + durSum fs

/-- The fully-timed prefix produced by backward promotion from anchor a:
    route i spans from a minus the durations from i on, to a minus the
    durations after i. -/
def chainTimes : List FlexRoute → Nat → List TimedRoute
  | [], _ => []
  | f :: fs, a =>
    ⟨f.start, a - durSum (f :: fs), f.dest, a - durSum fs⟩ :: chainTimes fs a

/-- The promoted prefix is chained: each dest_time is the next
    start_time, and the last dest_time is the anchor. -/
def chainedTo : List TimedRoute → Nat → Prop
  | [], _ => True
  | [p], a => p.dest_time = a
  | p :: q :: ps, a => p.dest_time = q.start_time ∧ chainedTo (q :: ps) a

/-- The start locations owning an adjacency list. -/
def gKeys (g : CommuteGraph) : List String := g.edges.map Prod.fst

/-- How many adjacency-list keys are not yet in the visited set: the
    termination measure of the search. -/
def keysLeft (g : CommuteGraph) (seen : List String) : Nat :=
  ((gKeys g).filter (fun k => decide (k ∉ seen))).length

/-- The parsed entries of the test document (src/commute_test.py lines
    40-45): the leading comment line is dropped by parse; the timed lines
    construct TimedRoutes from their time tokens; the flex lines carry
    integer minute durations. -/
def docEntriesE : Except String (List Entry) :=
  match TimedRoute.ofTokens "busstop" ⟨7,0⟩ "legislature" ⟨7,35⟩ with
  | Except.error e => Except.error e
  | Except.ok t1 =>
    match TimedRoute.ofTokens "busstop" ⟨7,15⟩ "legislature" ⟨7,50⟩ with
    | Except.error e => Except.error e
    | Except.ok t2 =>
      Except.ok [Entry.header "home" "macewan",
        Entry.flex ⟨"home","busstop",5⟩,
        Entry.timed t1, Entry.timed t2,
        Entry.flex ⟨"legislature","macewan",15⟩]

/-- The graph CommuteGraph.__init__ builds from the test document. -/
def docGraphE : Except String CommuteGraph :=
  match docEntriesE with
  | Except.error e => Except.error e
  | Except.ok es => CommuteGraph.build es

/-- The value of docGraphE, spelled out (7:00 is 420 minutes, 7:35 is
    455, 7:15 is 435, 7:50 is 470). -/
def docGraph : CommuteGraph :=
  ⟨"home", "macewan",
   [("home", [Route.flex ⟨"home","busstop",5⟩]),
    ("busstop", [Route.timed ⟨"busstop",420,"legislature",455⟩,
                 Route.timed ⟨"busstop",435,"legislature",470⟩]),
    ("legislature", [Route.flex ⟨"legislature","macewan",15⟩])]⟩

/-- First itinerary found on docGraph: via the 7:00 bus. -/
def docItinA : Itin :=
  [Route.timed ⟨"home",415,"busstop",420⟩,
   Route.timed ⟨"busstop",420,"legislature",455⟩,
   Route.timed ⟨"legislature",470,"macewan",485⟩]

/-- Second itinerary found on docGraph: via the 7:15 bus. -/
def docItinB : Itin :=
  [Route.timed ⟨"home",430,"busstop",435⟩,
   Route.timed ⟨"busstop",435,"legislature",470⟩,
   Route.timed ⟨"legislature",485,"macewan",500⟩]

/-- A node with a flex edge followed (in priority order) by a timed edge:
    the configuration in which dfs_constrained's loop-local ts mutation
    is observable across siblings. -/
def sibGraph : CommuteGraph :=
  ⟨"x", "b", [("x", [Route.flex ⟨"x","a",60⟩, Route.timed ⟨"x",425,"b",430⟩])]⟩

/-- The same node with the flex sibling removed. -/
def sibGraphTimedOnly : CommuteGraph :=
  ⟨"x", "b", [("x", [Route.timed ⟨"x",425,"b",430⟩])]⟩

/-- Two consecutive flex edges reached in constrained mode. -/
def twoFlexGraph : CommuteGraph :=
  ⟨"legislature", "gym",
   [("legislature", [Route.flex ⟨"legislature","macewan",15⟩]),
    ("macewan", [Route.flex ⟨"macewan","gym",10⟩])]⟩

/-- A graph with a cycle back through the overall destination b: b is an
    intermediate waypoint of the longer itinerary a-b-c-b. -/
def cycGraph : CommuteGraph :=
  ⟨"a", "b",
   [("a", [Route.flex ⟨"a","b",1⟩]),
    ("b", [Route.flex ⟨"b","c",1⟩]),
    ("c", [Route.flex ⟨"c","b",1⟩])]⟩

/-- A cycle of timed routes back through the overall destination b: after
    the first timed leg the search is in Constrained mode, and the
    destination has outgoing timed edges, so b recurs as an intermediate
    waypoint of the longer itinerary a-b-c-b found in Constrained mode
    (10:00-10:10, 10:20-10:30, 10:40-10:50 in minutes from midnight). -/
def cycGraphTimed : CommuteGraph :=
  ⟨"a", "b",
   [("a", [Route.timed ⟨"a",600,"b",610⟩]),
    ("b", [Route.timed ⟨"b",620,"c",630⟩]),
    ("c", [Route.timed ⟨"c",640,"b",650⟩])]⟩

lemma subDur_exact (t d : Nat) (hd : d ≤ t) (ht : t < minutesPerDay) :
    subDur t d = t - d := by
  have ht2 : t < 1440 := ht
  simp only [subDur, minutesPerDay]
  omega

/-- Claim C8: every TimedRoute construction whose start_time is not strictly
    before its dest_time fails with the hard construction error, and promoting
    a zero-duration FlexRoute with either a begin_ts or an end_ts anchor (the
    anchor being a valid clock time) fails with that same error rather than
    returning a route. -/
theorem c8_construction_invariant :
    (∀ (s : String) (st : Nat) (d : String) (dt : Nat), dt ≤ st →
      TimedRoute.make s st d dt = Except.error "Start time must be before dest time!")
    ∧ (∀ (f : FlexRoute) (t : Nat), f.duration = 0 → t < minutesPerDay →
        f.promote (some t) none = Except.error "Start time must be before dest time!"
        ∧ f.promote none (some t) = Except.error "Start time must be before dest time!") := by
  refine ⟨fun s st d dt h => by simp [TimedRoute.make, h], fun f t hd ht => ⟨?_, ?_⟩⟩
  · simp [FlexRoute.promote, TimedRoute.make, addDur, hd, Nat.mod_eq_of_lt ht]
  · have ht2 : t < 1440 := ht
    have hsub : subDur t 0 = t := by
      simp only [subDur, minutesPerDay]
      omega
    simp [FlexRoute.promote, TimedRoute.make, hd, hsub]

/-- Claim C8 witness: the theorem applied at a concrete equal-time
    construction and at a concrete zero-duration FlexRoute. -/
theorem c8_witness :
    ((5 : Nat) ≤ 5 ∧ (⟨"a","b",0⟩ : FlexRoute).duration = 0 ∧ (100 : Nat) < minutesPerDay)
    ∧ TimedRoute.make "p" 5 "q" 5 = Except.error "Start time must be before dest time!"
    ∧ (⟨"a","b",0⟩ : FlexRoute).promote (some 100) none
        = Except.error "Start time must be before dest time!" :=
  ⟨⟨by decide, rfl, by decide⟩,
   c8_construction_invariant.1 "p" 5 "q" 5 (by decide),
   (c8_construction_invariant.2 ⟨"a","b",0⟩ 100 rfl (by decide)).1⟩

/-- Claim C9 (amended): TimedRoute construction DOES range-check the hour and
    minute of a lexically well-shaped token, because datetime.time raises
    ValueError outside 0-23 / 0-59; construction from tokens succeeds exactly
    when both tokens are in range and the first time is strictly before the
    second. -/
theorem c9_amended_range_check :
    ∀ (s d : String) (t1 t2 : TimeTok),
      (∃ r, TimedRoute.ofTokens s t1 d t2 = Except.ok r)
        ↔ (t1.h ≤ 23 ∧ t1.m ≤ 59 ∧ t2.h ≤ 23 ∧ t2.m ≤ 59
           ∧ t1.h * 60 + t1.m < t2.h * 60 + t2.m) := by
  intro s d t1 t2
  unfold TimedRoute.ofTokens validateTime TimedRoute.make
  by_cases h1 : t1.h ≤ 23 ∧ t1.m ≤ 59 <;> by_cases h2 : t2.h ≤ 23 ∧ t2.m ≤ 59 <;>
    simp [h1, h2]
  · by_cases h3 : t2.h * 60 + t2.m ≤ t1.h * 60 + t1.m <;> simp [h3] <;> omega
  · omega
  · omega
  · omega

/-- Claim C10: in both search modes, whenever the current location equals the
    destination the accumulated path is yielded first, and the search then
    continues exploring the destination's outgoing edges: at an unvisited
    destination the whole run is the yielded accumulator consed onto exactly
    the edge-loop exploration a non-destination node would perform, in
    Constrained and Unconstrained mode alike.  Concretely, on cycGraphTimed
    the Constrained search reaches destination b, yields, and walks b's
    outgoing timed edges to find the longer itinerary a-b-c-b, so the
    destination recurs as an intermediate waypoint (cycGraph shows the same
    in Unconstrained mode); when start = dest the zero-length itinerary is
    yielded immediately. -/
theorem c10_dest_yield :
    (∀ (g : CommuteGraph) (d : String) (fuel : Nat) (seen : List String)
        (acc : Itin) (ts : Nat),
      (dfs_constrained g d (fuel+1) d seen acc ts).1.head? = some acc
      ∧ (dfs_unconstrained g d (fuel+1) d seen acc).1.head? = some acc)
    ∧ (∀ (g : CommuteGraph) (d : String) (fuel : Nat) (seen : List String)
        (acc : Itin) (ts : Nat), d ∉ seen →
      dfs_constrained g d (fuel+1) d seen acc ts
        = (acc :: ((lookupE g.edges d).foldl
              (stepC (dfs_constrained g d fuel) d seen acc) (ts, ([], none))).2.1,
           ((lookupE g.edges d).foldl
              (stepC (dfs_constrained g d fuel) d seen acc) (ts, ([], none))).2.2)
      ∧ dfs_unconstrained g d (fuel+1) d seen acc
        = (acc :: ((lookupE g.edges d).foldl
              (stepU (dfs_unconstrained g d fuel) (dfs_constrained g d fuel)
                d seen acc) ([], none)).1,
           ((lookupE g.edges d).foldl
              (stepU (dfs_unconstrained g d fuel) (dfs_constrained g d fuel)
                d seen acc) ([], none)).2))
    ∧ (∀ (g : CommuteGraph) (s : String),
        (find_path g s s).1.head? = some ([] : Itin))
    ∧ find_path cycGraph "a" "b"
        = ([[Route.flex ⟨"a","b",1⟩],
            [Route.flex ⟨"a","b",1⟩, Route.flex ⟨"b","c",1⟩, Route.flex ⟨"c","b",1⟩]],
           none)
    ∧ find_path cycGraphTimed "a" "b"
        = ([[Route.timed ⟨"a",600,"b",610⟩],
            [Route.timed ⟨"a",600,"b",610⟩, Route.timed ⟨"b",620,"c",630⟩,
             Route.timed ⟨"c",640,"b",650⟩]],
           none) := by
  have h1 : ∀ (g : CommuteGraph) (d : String) (fuel : Nat) (seen : List String)
      (acc : Itin) (ts : Nat),
      (dfs_constrained g d (fuel+1) d seen acc ts).1.head? = some acc
      ∧ (dfs_unconstrained g d (fuel+1) d seen acc).1.head? = some acc := by
    intro g d fuel seen acc ts
    constructor
    · simp [dfs_constrained, GenRun.seq]
    · simp [dfs_unconstrained, GenRun.seq]
  refine ⟨h1, ?_, fun g s => (h1 g s g.edges.length [] [] 0).2, rfl, rfl⟩
  intro g d fuel seen acc ts hns
  constructor
  · conv_lhs => rw [dfs_constrained]
    simp [GenRun.seq, hns]
  · conv_lhs => rw [dfs_unconstrained]
    simp [GenRun.seq, hns]

/-- Claim C10 witness: the continuation equation applied at the destination
    node of cycGraphTimed with the empty visited set. -/
theorem c10_witness :
    ("b" ∉ ([] : List String))
    ∧ dfs_constrained cycGraphTimed "b" (1+1) "b" [] [] 0
        = ([] :: ((lookupE cycGraphTimed.edges "b").foldl
              (stepC (dfs_constrained cycGraphTimed "b" 1) "b" [] [])
              (0, ([], none))).2.1,
           ((lookupE cycGraphTimed.edges "b").foldl
              (stepC (dfs_constrained cycGraphTimed "b" 1) "b" [] [])
              (0, ([], none))).2.2) :=
  ⟨by decide, (c10_dest_yield.2.1 cycGraphTimed "b" 1 [] [] 0 (by decide)).1⟩

lemma promoteBack_chainTimes :
    ∀ (fs : List FlexRoute) (a : Nat), a < minutesPerDay →
      (∀ f ∈ fs, 0 < f.duration) → durSum fs ≤ a →
      promoteBack (fs.map Route.flex) a
        = Except.ok ((chainTimes fs a).map Route.timed, a - durSum fs) := by
  intro fs
  induction fs with
  | nil => intro a ha hd hs; simp [promoteBack, chainTimes, durSum]
  | cons f t ih =>
    intro a ha hd hs
    have hsum : f.duration + durSum t ≤ a := hs
    have hs2 : durSum t ≤ a := by omega
    have hf : 0 < f.duration := hd f (List.mem_cons_self _ _)
    have hd2 : ∀ x ∈ t, 0 < x.duration := fun x hx => hd x (List.mem_cons_of_mem _ hx)
    have hfle : f.duration ≤ a - durSum t := by omega
    simp only [List.map_cons, promoteBack, ih a ha hd2 hs2]
    simp only [FlexRoute.promote, TimedRoute.make]
    rw [subDur_exact _ _ hfle (by omega : a - durSum t < minutesPerDay)]
    have hcond : ¬ (a - durSum t ≤ a - durSum t - f.duration) := by omega
    simp only [if_neg hcond]
    simp only [chainTimes, durSum, List.map_cons]
    have : a - durSum t - f.duration = a - (f.duration + durSum t) := by omega
    rw [this]

lemma chainedTo_chainTimes : ∀ (fs : List FlexRoute) (a : Nat),
    chainedTo (chainTimes fs a) a := by
  intro fs
  induction fs with
  | nil => intro a; trivial
  | cons f t ih =>
    intro a
    cases t with
    | nil => simp [chainTimes, chainedTo, durSum]
    | cons f2 t2 => exact ⟨rfl, ih a⟩

lemma chainTimes_endpoints : ∀ (fs : List FlexRoute) (a : Nat),
    (chainTimes fs a).map (fun p => (p.start, p.dest))
      = fs.map (fun f => (f.start, f.dest)) := by
  intro fs
  induction fs with
  | nil => intro a; rfl
  | cons f t ih => intro a; simp [chainTimes, ih]

lemma chainTimes_durations : ∀ (fs : List FlexRoute) (a : Nat), durSum fs ≤ a →
    (chainTimes fs a).map (fun p => p.dest_time - p.start_time)
      = fs.map FlexRoute.duration := by
  intro fs
  induction fs with
  | nil => intro a _; rfl
  | cons f t ih =>
    intro a hs
    have hsum : f.duration + durSum t ≤ a := hs
    simp only [chainTimes, List.map_cons, durSum]
    have hh : a - durSum t - (a - (f.duration + durSum t)) = f.duration := by omega
    rw [hh, ih a (by omega)]

/-- Claim C3: in Unconstrained mode, meeting a TimedRoute tr with accumulated
    FlexRoutes fs makes the new accumulator the backward promotion of fs
    (chained so that each promoted dest_time is the next start_time and the
    last dest_time is tr.start_time, with endpoints and durations preserved)
    followed by tr, and the search continues in Constrained mode with
    floor_time = tr.dest_time.  The same-day hypotheses rule out midnight
    wrap-around, which the source would turn into a constructor exception. -/
theorem c3_mode_transition (fs : List FlexRoute) (tr : TimedRoute)
    (h1 : tr.start_time < minutesPerDay)
    (h2 : ∀ f ∈ fs, 0 < f.duration)
    (h3 : durSum fs ≤ tr.start_time) :
    promoteBack (fs.map Route.flex) tr.start_time
      = Except.ok ((chainTimes fs tr.start_time).map Route.timed,
                   tr.start_time - durSum fs)
    ∧ (chainTimes fs tr.start_time).map (fun p => (p.start, p.dest))
        = fs.map (fun f => (f.start, f.dest))
    ∧ (chainTimes fs tr.start_time).map (fun p => p.dest_time - p.start_time)
        = fs.map FlexRoute.duration
    ∧ chainedTo (chainTimes fs tr.start_time) tr.start_time
    ∧ (∀ (g : CommuteGraph) (d : String) (fuel : Nat) (curr : String)
         (seen : List String), curr ≠ d → curr ∉ seen →
        lookupE g.edges curr = [Route.timed tr] →
        dfs_unconstrained g d (fuel+1) curr seen (fs.map Route.flex)
          = dfs_constrained g d fuel tr.dest (curr :: seen)
              ((chainTimes fs tr.start_time).map Route.timed ++ [Route.timed tr])
              tr.dest_time) := by
  have hpb := promoteBack_chainTimes fs tr.start_time h1 h2 h3
  refine ⟨hpb, chainTimes_endpoints fs tr.start_time,
    chainTimes_durations fs tr.start_time h3, chainedTo_chainTimes fs tr.start_time, ?_⟩
  intro g d fuel curr seen hne hns hlk
  simp only [dfs_unconstrained, hlk, if_neg hne, if_neg hns, List.foldl_cons,
    List.foldl_nil, stepU, hpb]
  rfl

lemma foldl_congrF {α β : Type} {f g : β → α → β} (h : ∀ b a, f b a = g b a) :
    ∀ (l : List α) (init : β), l.foldl f init = l.foldl g init := by
  intro l
  induction l with
  | nil => intro init; rfl
  | cons x t ih => intro init; rw [List.foldl_cons, List.foldl_cons, h, ih]

lemma filter_len_le {α : Type} (p q : α → Bool) (h : ∀ a, q a = true → p a = true) :
    ∀ l : List α, (l.filter q).length ≤ (l.filter p).length := by
  intro l
  induction l with
  | nil => simp
  | cons x t ih =>
    cases hq : q x with
    | true =>
      have hp := h x hq
      simp [List.filter_cons, hq, hp]
      omega
    | false =>
      cases hp : p x <;> simp [List.filter_cons, hq, hp] <;> omega

lemma filter_len_lt {α : Type} (p q : α → Bool) (h : ∀ a, q a = true → p a = true)
    (x : α) (hpx : p x = true) (hqx : q x = false) :
    ∀ l : List α, x ∈ l → (l.filter q).length < (l.filter p).length := by
  intro l
  induction l with
  | nil => intro hx; cases hx
  | cons y t ih =>
    intro hm
    rcases List.mem_cons.mp hm with rfl | hm2
    · simp [List.filter_cons, hpx, hqx]
      exact Nat.lt_succ_of_le (filter_len_le p q h t)
    · cases hqy : q y with
      | true =>
        have hpy := h y hqy
        simp [List.filter_cons, hqy, hpy]
        exact ih hm2
      | false =>
        cases hpy : p y <;> simp [List.filter_cons, hqy, hpy]
        · exact ih hm2
        · have := ih hm2; omega

lemma keysLeft_cons_lt {g : CommuteGraph} {curr : String} {seen : List String}
    (hmem : curr ∈ gKeys g) (hns : curr ∉ seen) :
    keysLeft g (curr :: seen) < keysLeft g seen := by
  unfold keysLeft
  refine filter_len_lt _ _ ?_ curr ?_ ?_ _ hmem
  · intro a ha
    simp only [decide_eq_true_eq] at ha ⊢
    intro hcon
    exact ha (List.mem_cons_of_mem _ hcon)
  · simp [hns]
  · simp

lemma keysLeft_nil (g : CommuteGraph) : keysLeft g [] = g.edges.length := by
  unfold keysLeft gKeys
  have h : ∀ a ∈ g.edges.map Prod.fst,
      (fun k => decide (k ∉ ([] : List String))) a = true := by
    intro a _; simp
  rw [List.filter_eq_self.mpr h, List.length_map]

lemma lookup_mem_keys {g : CommuteGraph} {curr : String}
    (h : lookupE g.edges curr ≠ []) : curr ∈ gKeys g := by
  unfold lookupE at h
  cases hf : g.edges.find? (fun p => p.1 == curr) with
  | none => rw [hf] at h; simp at h
  | some p =>
    have hp1 : p.1 = curr := by
      have h2 := List.find?_some hf
      simpa using h2
    have hmem : p ∈ g.edges := List.mem_of_find?_eq_some hf
    unfold gKeys
    exact hp1 ▸ List.mem_map_of_mem Prod.fst hmem

lemma stepC_congr {r1 r2 : String → List String → Itin → Nat → GenRun}
    {curr : String} {seen : List String} {acc : Itin}
    (h : ∀ a c dd, r1 a (curr :: seen) c dd = r2 a (curr :: seen) c dd) :
    ∀ (st : Nat × GenRun) (e : Route),
      stepC r1 curr seen acc st e = stepC r2 curr seen acc st e := by
  intro st e
  obtain ⟨ts, items, err⟩ := st
  cases err with
  | some m => rfl
  | none =>
    cases e with
    | timed t => simp [stepC, h]
    | flex f =>
      cases hp : f.promote (some (addDur ts f.duration)) none with
      | error m => simp [stepC, hp]
      | ok p => simp [stepC, hp, h]

lemma stepU_congr {rU1 rU2 : String → List String → Itin → GenRun}
    {rC1 rC2 : String → List String → Itin → Nat → GenRun}
    {curr : String} {seen : List String} {acc : Itin}
    (hU : ∀ a c, rU1 a (curr :: seen) c = rU2 a (curr :: seen) c)
    (hC : ∀ a c dd, rC1 a (curr :: seen) c dd = rC2 a (curr :: seen) c dd) :
    ∀ (st : GenRun) (e : Route),
      stepU rU1 rC1 curr seen acc st e = stepU rU2 rC2 curr seen acc st e := by
  intro st e
  obtain ⟨items, err⟩ := st
  cases err with
  | some m => rfl
  | none =>
    cases e with
    | flex f => simp [stepU, hU]
    | timed t =>
      cases hp : promoteBack acc t.start_time with
      | error m => simp [stepU, hp]
      | ok pr =>
        obtain ⟨na, x2⟩ := pr
        simp [stepU, hp, hC]

lemma dfsC_fuel_succ (g : CommuteGraph) (d : String) :
    ∀ (fuel : Nat) (curr : String) (seen : List String) (acc : Itin) (ts : Nat),
      keysLeft g seen < fuel →
      dfs_constrained g d fuel curr seen acc ts
        = dfs_constrained g d (fuel+1) curr seen acc ts := by
  intro fuel
  induction fuel with
  | zero => intro _ _ _ _ h; exact absurd h (Nat.not_lt_zero _)
  | succ m ih =>
    intro curr seen acc ts h
    conv_lhs => rw [dfs_constrained]
    conv_rhs => rw [dfs_constrained]
    congr 1
    by_cases hseen : curr ∈ seen
    · simp [hseen]
    · simp only [if_neg hseen]
      cases hlk : lookupE g.edges curr with
      | nil => rfl
      | cons e es =>
        have hmem : curr ∈ gKeys g := lookup_mem_keys (by rw [hlk]; simp)
        have hlt : keysLeft g (curr :: seen) < m := by
          have h2 := keysLeft_cons_lt hmem hseen
          omega
        have hstep := @stepC_congr (dfs_constrained g d m)
          (dfs_constrained g d (m+1)) curr seen acc
          (fun a c dd => ih a (curr :: seen) c dd hlt)
        exact congrArg Prod.snd (foldl_congrF hstep (e :: es) (ts, ([], none)))

lemma dfsC_fuel_ge (g : CommuteGraph) (d : String) (curr : String)
    (seen : List String) (acc : Itin) (ts : Nat) :
    ∀ (n k : Nat), keysLeft g seen < k → k ≤ n →
      dfs_constrained g d n curr seen acc ts
        = dfs_constrained g d k curr seen acc ts := by
  intro n k hk hkn
  induction n, hkn using Nat.le_induction with
  | base => rfl
  | succ n hkn ih =>
    rw [← dfsC_fuel_succ g d n curr seen acc ts (by omega)]
    exact ih

lemma dfsU_fuel_succ (g : CommuteGraph) (d : String) :
    ∀ (fuel : Nat) (curr : String) (seen : List String) (acc : Itin),
      keysLeft g seen < fuel →
      dfs_unconstrained g d fuel curr seen acc
        = dfs_unconstrained g d (fuel+1) curr seen acc := by
  intro fuel
  induction fuel with
  | zero => intro _ _ _ h; exact absurd h (Nat.not_lt_zero _)
  | succ m ih =>
    intro curr seen acc h
    conv_lhs => rw [dfs_unconstrained]
    conv_rhs => rw [dfs_unconstrained]
    congr 1
    by_cases hseen : curr ∈ seen
    · simp [hseen]
    · simp only [if_neg hseen]
      cases hlk : lookupE g.edges curr with
      | nil => rfl
      | cons e es =>
        have hmem : curr ∈ gKeys g := lookup_mem_keys (by rw [hlk]; simp)
        have hlt : keysLeft g (curr :: seen) < m := by
          have h2 := keysLeft_cons_lt hmem hseen
          omega
        have hstep := @stepU_congr (dfs_unconstrained g d m)
          (dfs_unconstrained g d (m+1)) (dfs_constrained g d m)
          (dfs_constrained g d (m+1)) curr seen acc
          (fun a c => ih a (curr :: seen) c hlt)
          (fun a c dd => dfsC_fuel_succ g d m a (curr :: seen) c dd hlt)
        exact foldl_congrF hstep (e :: es) _

lemma dfsU_fuel_ge (g : CommuteGraph) (d : String) (curr : String)
    (seen : List String) (acc : Itin) :
    ∀ (n k : Nat), keysLeft g seen < k → k ≤ n →
      dfs_unconstrained g d n curr seen acc
        = dfs_unconstrained g d k curr seen acc := by
  intro n k hk hkn
  induction n, hkn using Nat.le_induction with
  | base => rfl
  | succ n hkn ih =>
    rw [← dfsU_fuel_succ g d n curr seen acc (by omega)]
    exact ih

lemma mem_seq {a b : GenRun} {x : Itin} (h : x ∈ (GenRun.seq a b).1) :
    x ∈ a.1 ∨ x ∈ b.1 := by
  unfold GenRun.seq at h
  cases ha : a.2 with
  | none => rw [ha] at h; simpa using h
  | some m => rw [ha] at h; exact Or.inl h

lemma promoteBack_len : ∀ (acc : Itin) (ts : Nat) (na : Itin) (t2 : Nat),
    promoteBack acc ts = Except.ok (na, t2) → na.length ≤ acc.length := by
  intro acc
  induction acc with
  | nil =>
    intro ts na t2 h
    simp [promoteBack] at h
    simp [← h.1]
  | cons r rest ih =>
    intro ts na t2 h
    rw [promoteBack] at h
    revert h
    cases hpb : promoteBack rest ts with
    | error e => intro h; simp at h
    | ok pr =>
      obtain ⟨tail, ts2⟩ := pr
      have htail := ih ts tail ts2 hpb
      cases r with
      | flex f =>
        intro h
        have h2 : (match f.promote none (some ts2) with
            | Except.error e => (Except.error e : Except String (Itin × Nat))
            | Except.ok p => Except.ok (Route.timed p :: tail, p.start_time))
            = Except.ok (na, t2) := h
        cases hp : f.promote none (some ts2) with
        | error e => rw [hp] at h2; simp at h2
        | ok p =>
          rw [hp] at h2
          simp at h2
          obtain ⟨hna, hts⟩ := h2
          simp [← hna]
          omega
      | timed t =>
        intro h
        have h2 : (Except.ok (tail, ts2) : Except String (Itin × Nat))
            = Except.ok (na, t2) := h
        simp at h2
        obtain ⟨hna, hts⟩ := h2
        simp [← hna]
        omega

lemma foldl_inv {α σ : Type} (step : σ → α → σ) (proj : σ → List Itin)
    (P : Itin → Prop)
    (hstep : ∀ st e, (∀ x ∈ proj st, P x) → ∀ x ∈ proj (step st e), P x) :
    ∀ (l : List α) (st : σ), (∀ x ∈ proj st, P x) →
      ∀ x ∈ proj (l.foldl step st), P x := by
  intro l
  induction l with
  | nil => intro st h; exact h
  | cons e t ih => intro st h; exact ih (step st e) (hstep st e h)

lemma dfsC_len (g : CommuteGraph) (d : String) :
    ∀ (fuel : Nat) (curr : String) (seen : List String) (acc : Itin) (ts : Nat),
      ∀ x ∈ (dfs_constrained g d fuel curr seen acc ts).1,
      x.length ≤ acc.length + keysLeft g seen := by
  intro fuel
  induction fuel with
  | zero => intro curr seen acc ts x hx; simp [dfs_constrained] at hx
  | succ m ih =>
    intro curr seen acc ts x hx
    rw [dfs_constrained] at hx
    rcases mem_seq hx with h1 | h2
    · by_cases hd : curr = d
      · rw [if_pos hd] at h1
        simp at h1
        subst h1
        omega
      · rw [if_neg hd] at h1
        simp at h1
    · by_cases hseen : curr ∈ seen
      · rw [if_pos hseen] at h2
        simp at h2
      · rw [if_neg hseen] at h2
        cases hlk : lookupE g.edges curr with
        | nil => rw [hlk] at h2; simp at h2
        | cons e es =>
          rw [hlk] at h2
          have hmem : curr ∈ gKeys g := lookup_mem_keys (by rw [hlk]; simp)
          have hkl : keysLeft g (curr :: seen) < keysLeft g seen :=
            keysLeft_cons_lt hmem hseen
          refine foldl_inv (stepC (dfs_constrained g d m) curr seen acc)
            (fun st => st.2.1)
            (fun y => y.length ≤ acc.length + keysLeft g seen) ?_
            (e :: es) (ts, ([], none)) (by simp) x h2
          intro st ee hin y hy
          obtain ⟨ts0, items, err⟩ := st
          cases err with
          | some msg => exact hin y hy
          | none =>
            cases ee with
            | timed t =>
              simp only [stepC] at hy
              by_cases hc : ts0 ≤ t.dest_time
              · rw [if_pos hc] at hy
                rcases mem_seq hy with hy1 | hy2
                · exact hin y hy1
                · have := ih t.dest (curr :: seen) (acc ++ [Route.timed t])
                    t.dest_time y hy2
                  simp at this
                  omega
              · rw [if_neg hc] at hy
                exact hin y hy
            | flex f =>
              simp only [stepC] at hy
              cases hp : f.promote (some (addDur ts0 f.duration)) none with
              | error msg => rw [hp] at hy; exact hin y hy
              | ok p =>
                rw [hp] at hy
                rcases mem_seq hy with hy1 | hy2
                · exact hin y hy1
                · have := ih p.dest (curr :: seen) (acc ++ [Route.timed p])
                    (addDur ts0 f.duration) y hy2
                  simp at this
                  omega

lemma dfsU_len (g : CommuteGraph) (d : String) :
    ∀ (fuel : Nat) (curr : String) (seen : List String) (acc : Itin),
      ∀ x ∈ (dfs_unconstrained g d fuel curr seen acc).1,
      x.length ≤ acc.length + keysLeft g seen := by
  intro fuel
  induction fuel with
  | zero => intro curr seen acc x hx; simp [dfs_unconstrained] at hx
  | succ m ih =>
    intro curr seen acc x hx
    rw [dfs_unconstrained] at hx
    rcases mem_seq hx with h1 | h2
    · by_cases hd : curr = d
      · rw [if_pos hd] at h1
        simp at h1
        subst h1
        omega
      · rw [if_neg hd] at h1
        simp at h1
    · by_cases hseen : curr ∈ seen
      · rw [if_pos hseen] at h2
        simp at h2
      · rw [if_neg hseen] at h2
        cases hlk : lookupE g.edges curr with
        | nil => rw [hlk] at h2; simp at h2
        | cons e es =>
          rw [hlk] at h2
          have hmem : curr ∈ gKeys g := lookup_mem_keys (by rw [hlk]; simp)
          have hkl : keysLeft g (curr :: seen) < keysLeft g seen :=
            keysLeft_cons_lt hmem hseen
          refine foldl_inv
            (stepU (dfs_unconstrained g d m) (dfs_constrained g d m) curr seen acc)
            (fun st => st.1)
            (fun y => y.length ≤ acc.length + keysLeft g seen) ?_
            (e :: es) (([], none) : GenRun) (by simp) x h2
          intro st ee hin y hy
          obtain ⟨items, err⟩ := st
          cases err with
          | some msg => exact hin y hy
          | none =>
            cases ee with
            | flex f =>
              simp only [stepU] at hy
              rcases mem_seq hy with hy1 | hy2
              · exact hin y hy1
              · have := ih f.dest (curr :: seen) (acc ++ [Route.flex f]) y hy2
                simp at this
                omega
            | timed t =>
              simp only [stepU] at hy
              cases hp : promoteBack acc t.start_time with
              | error msg => rw [hp] at hy; exact hin y hy
              | ok pr =>
                obtain ⟨na, x2⟩ := pr
                rw [hp] at hy
                rcases mem_seq hy with hy1 | hy2
                · exact hin y hy1
                · have hna := promoteBack_len acc t.start_time na x2 hp
                  have := dfsC_len g d m t.dest (curr :: seen)
                    (na ++ [Route.timed t]) t.dest_time y hy2
                  simp at this
                  omega

/-- Claim C6: find_path terminates and yields a finite list of itineraries:
    the search result is independent of the fuel once the fuel exceeds the
    number of locations with outgoing edges (the visited-set rule bounds the
    recursion depth), and every yielded itinerary is at most that number of
    routes long. -/
theorem c6_termination :
    (∀ (g : CommuteGraph) (s d : String) (f1 f2 : Nat),
        g.edges.length < f1 → g.edges.length < f2 →
        dfs_unconstrained g d f1 s [] [] = dfs_unconstrained g d f2 s [] [])
    ∧ (∀ (g : CommuteGraph) (s d : String),
        ∀ x ∈ (find_path g s d).1, x.length ≤ g.edges.length) := by
  constructor
  · intro g s d f1 f2 h1 h2
    have hk : keysLeft g [] = g.edges.length := keysLeft_nil g
    have e1 := dfsU_fuel_ge g d s [] [] f1 (g.edges.length + 1) (by omega) (by omega)
    have e2 := dfsU_fuel_ge g d s [] [] f2 (g.edges.length + 1) (by omega) (by omega)
    rw [e1, e2]
  · intro g s d x hx
    have h := dfsU_len g d (g.edges.length + 1) s [] [] x hx
    simpa [keysLeft_nil] using h

/-- Claim C6 witness: the theorem applied to a concrete one-edge graph. -/
theorem c6_witness :
    ((⟨"a", "b", [("a", [Route.flex ⟨"a","b",3⟩])]⟩ : CommuteGraph).edges.length < 2
      ∧ (⟨"a", "b", [("a", [Route.flex ⟨"a","b",3⟩])]⟩ : CommuteGraph).edges.length < 5
      ∧ [Route.flex ⟨"a","b",3⟩]
          ∈ (find_path ⟨"a", "b", [("a", [Route.flex ⟨"a","b",3⟩])]⟩ "a" "b").1)
    ∧ dfs_unconstrained ⟨"a", "b", [("a", [Route.flex ⟨"a","b",3⟩])]⟩ "b" 2 "a" [] []
        = dfs_unconstrained ⟨"a", "b", [("a", [Route.flex ⟨"a","b",3⟩])]⟩ "b" 5 "a" [] []
    ∧ ([Route.flex ⟨"a","b",3⟩] : Itin).length
        ≤ (⟨"a", "b", [("a", [Route.flex ⟨"a","b",3⟩])]⟩ : CommuteGraph).edges.length :=
  ⟨⟨by decide, by decide, by decide⟩,
   c6_termination.1 ⟨"a", "b", [("a", [Route.flex ⟨"a","b",3⟩])]⟩ "a" "b" 2 5
     (by decide) (by decide),
   c6_termination.2 ⟨"a", "b", [("a", [Route.flex ⟨"a","b",3⟩])]⟩ "a" "b"
     [Route.flex ⟨"a","b",3⟩] (by decide)⟩

lemma buildEdges_dup : ∀ (l : List Entry) (es : List (String × List Route)),
    (∃ e ∈ l, e.isHeaderB = true) →
    buildEdges l es = Except.error "Duplicate header" := by
  intro l
  induction l with
  | nil => intro es h; simp at h
  | cons x t ih =>
    intro es h
    cases x with
    | header a b => rfl
    | flex f =>
      obtain ⟨e, he, hh⟩ := h
      rcases List.mem_cons.mp he with rfl | hm
      · simp [Entry.isHeaderB] at hh
      · exact ih _ ⟨e, hm, hh⟩
    | timed t0 =>
      obtain ⟨e, he, hh⟩ := h
      rcases List.mem_cons.mp he with rfl | hm
      · simp [Entry.isHeaderB] at hh
      · exact ih _ ⟨e, hm, hh⟩

/-- Claim C7 (amended): a parsed-entry sequence with no Header fails Graph
    construction, but never with the MissingHeader error: a nonempty
    route-only sequence fails with RoutesBeforeHeader, and the empty sequence
    crashes with a NameError because the loop variable is unbound and the
    missing-header check `i == len(entries)` is unreachable; a second Header
    after the first fails with DuplicateHeader; in all cases the Except result
    carries no adjacency map. -/
theorem c7_amended_structural_errors :
    (∀ entries : List Entry, (∀ e ∈ entries, e.isHeaderB = false) →
      CommuteGraph.build entries
        = Except.error (if entries = [] then "NameError: name i is not defined"
                        else "Routes appearing before header"))
    ∧ (∀ (s d : String) (rest : List Entry), (∃ e ∈ rest, e.isHeaderB = true) →
      CommuteGraph.build (Entry.header s d :: rest)
        = Except.error "Duplicate header") := by
  constructor
  · intro entries h
    match entries with
    | [] => rfl
    | Entry.header s d :: rest =>
      have := h _ (List.mem_cons_self _ _)
      simp [Entry.isHeaderB] at this
    | Entry.flex f :: rest => rfl
    | Entry.timed t :: rest => rfl
  · intro s d rest h
    have hlen : ¬ ((0 : Nat) = (Entry.header s d :: rest).length) := by simp
    simp only [CommuteGraph.build, findHeader, if_neg hlen, List.drop_succ_cons,
      List.drop_zero]
    rw [buildEdges_dup rest [] h]

/-- Claim C7 witness: the amended theorem applied to a concrete route-only
    sequence and to a concrete duplicate-header sequence. -/
theorem c7_amended_witness :
    ((∀ e ∈ ([Entry.timed ⟨"p",1,"q",2⟩] : List Entry), e.isHeaderB = false)
      ∧ (∃ e ∈ ([Entry.header "h" "w"] : List Entry), e.isHeaderB = true))
    ∧ CommuteGraph.build [Entry.timed ⟨"p",1,"q",2⟩]
        = Except.error "Routes appearing before header"
    ∧ CommuteGraph.build [Entry.header "h" "w", Entry.header "h" "w"]
        = Except.error "Duplicate header" :=
  ⟨⟨by decide, ⟨Entry.header "h" "w", by simp, rfl⟩⟩,
   by
     have h := c7_amended_structural_errors.1 [Entry.timed ⟨"p",1,"q",2⟩] (by decide)
     simpa using h,
   c7_amended_structural_errors.2 "h" "w" [Entry.header "h" "w"]
     ⟨Entry.header "h" "w", by simp, rfl⟩⟩

/-- Claim C7 counterexample: a no-Header entry sequence does not fail with
    the MissingHeader error as the claim states: a route-only sequence fails
    with RoutesBeforeHeader, and the empty sequence fails with the NameError
    of the unbound loop index. -/
theorem c7_counterexample :
    CommuteGraph.build [Entry.flex ⟨"a","b",5⟩]
        = Except.error "Routes appearing before header"
    ∧ CommuteGraph.build [Entry.flex ⟨"a","b",5⟩]
        ≠ Except.error "Missing header line"
    ∧ CommuteGraph.build [] = Except.error "NameError: name i is not defined" :=
  ⟨rfl,
   by
     intro h
     rw [show CommuteGraph.build [Entry.flex ⟨"a","b",5⟩]
         = Except.error "Routes appearing before header" from rfl] at h
     injection h with h2
     exact absurd h2 (by decide),
   rfl⟩

/-- Claim C9 counterexample: the lexically well-shaped token 99:99 is NOT
    accepted by the TimedRoute constructor: validateTime's datetime.time call
    range-checks the hour and minute and raises ValueError. -/
theorem c9_counterexample :
    TimedRoute.ofTokens "busstop" ⟨7,0⟩ "legislature" ⟨99,99⟩
      = Except.error "ValueError: hour or minute out of range" := rfl

/-- Claim C1 (code evaluation at the failing input): in Constrained mode at
    floor time 7:35 (455), taking the 15-minute flex edge appends the
    promotion with begin_ts = 7:50 = floor + duration (spanning 470-485, not
    455-470 as the claim states), and the recursion continues with floor 470 =
    the promoted route's START time; the second 10-minute flex leg therefore
    spans 480-490, overlapping the previous leg's arrival 485. -/
theorem c1_constrained_flex_eval :
    dfs_constrained twoFlexGraph "gym" 3 "legislature" [] [] 455
      = ([[Route.timed ⟨"legislature",470,"macewan",485⟩,
           Route.timed ⟨"macewan",480,"gym",490⟩]], none) := rfl

/-- Claim C5 (code evaluation at the failing input): with edges
    [flex duration 60, timed 7:05-7:10] and entry floor 7:00 (420), the timed
    sibling is evaluated against the floor 8:00 mutated by the earlier flex
    sibling in the same loop, so no itinerary is found; deleting the flex
    sibling makes the same timed edge usable against the entry floor. -/
theorem c5_sibling_floor_eval :
    dfs_constrained sibGraph "b" 2 "x" [] [] 420 = ([], none)
    ∧ dfs_constrained sibGraphTimedOnly "b" 2 "x" [] [] 420
        = ([[Route.timed ⟨"x",425,"b",430⟩]], none) := ⟨rfl, rfl⟩

/-- Claim C2: on the graph built from the test document, find_path from home
    to macewan yields exactly two itineraries and no exception, one containing
    each of the two timed busstop-legislature alternatives, and within each
    itinerary every route's start_time is at least the preceding route's
    dest_time. -/
theorem c2_search_completeness :
    docGraphE = Except.ok docGraph
    ∧ find_path docGraph "home" "macewan" = ([docItinA, docItinB], none)
    ∧ Route.timed ⟨"busstop",420,"legislature",455⟩ ∈ docItinA
    ∧ Route.timed ⟨"busstop",435,"legislature",470⟩ ∈ docItinB
    ∧ wellTimed docItinA = true
    ∧ wellTimed docItinB = true :=
  ⟨rfl, rfl, by decide, by decide, rfl, rfl⟩

/-- Claim C4 (code evaluation at the failing input): the TimedRoute from
    location z departing 7:00 starts strictly earlier than the one from
    location a departing 8:00, yet route_le ranks it after (the source
    compares the start LOCATION strings, not start_time), and python's stable
    sort consequently orders the pair by location, not by departure time. -/
theorem c4_priority_eval :
    (⟨"z",420,"w",455⟩ : TimedRoute).start_time
        < (⟨"a",480,"w",515⟩ : TimedRoute).start_time
    ∧ route_le (Route.timed ⟨"z",420,"w",455⟩) (Route.timed ⟨"a",480,"w",515⟩) = false
    ∧ route_lt (Route.timed ⟨"z",420,"w",455⟩) (Route.timed ⟨"a",480,"w",515⟩) = false
    ∧ pySort route_lt [Route.timed ⟨"z",420,"w",455⟩, Route.timed ⟨"a",480,"w",515⟩]
        = [Route.timed ⟨"a",480,"w",515⟩, Route.timed ⟨"z",420,"w",455⟩] :=
  ⟨by decide, rfl, rfl, rfl⟩

/-- Claim C3 witness: the theorem applied to a concrete two-leg flex chain
    anchored at 7:00. -/
theorem c3_witness :
    ((420 : Nat) < minutesPerDay
      ∧ (∀ f ∈ ([⟨"a","b",5⟩, ⟨"b","c",10⟩] : List FlexRoute), 0 < f.duration)
      ∧ durSum [⟨"a","b",5⟩, ⟨"b","c",10⟩] ≤ (⟨"c",420,"d",455⟩ : TimedRoute).start_time)
    ∧ chainedTo
        (chainTimes [⟨"a","b",5⟩, ⟨"b","c",10⟩] (⟨"c",420,"d",455⟩ : TimedRoute).start_time)
        (⟨"c",420,"d",455⟩ : TimedRoute).start_time :=
  ⟨⟨by decide, by decide, by decide⟩,
   (c3_mode_transition [⟨"a","b",5⟩, ⟨"b","c",10⟩] ⟨"c",420,"d",455⟩
     (by decide) (by decide) (by decide)).2.2.2.1⟩
